import Mathlib

/-!
Verification development for the Masked Diffusion Transformer model
(src/models/build_models.py).  The tensor programs are shallowly embedded:
tensors are total functions from natural-number indices to rationals, batched
with the batch index first, and the transcendental primitives used by the
network (exp, log, cos, sin, SiLU, GELU, sqrt, pi and the floating-point
power) are carried as an opaque parameter record, since the embedding works
in exact rational arithmetic.  Every definition mirrors the corresponding
Python function; randomness (weight samples, masking noise, label-dropout
draws) is passed in explicitly as caller-supplied streams.
-/

/-- Batched rank-2 tensor: indices (n, j). -/
abbrev T2 := ℕ → ℕ → ℚ

/-- Batched rank-3 tensor: indices (n, token, dim). -/
abbrev T3 := ℕ → ℕ → ℕ → ℚ

/-- Batched rank-4 tensor: indices (n, channel, row, col). -/
abbrev T4 := ℕ → ℕ → ℕ → ℕ → ℚ

/-- Opaque numeric primitives of the host framework.  The embedding works in
ℚ, so the transcendental functions the network uses are parameters; every
theorem that depends on concrete values quantifies over this record or fixes
an explicit instance. -/
structure Prims where
  exp : ℚ → ℚ
  log : ℚ → ℚ
  cos : ℚ → ℚ
  sin : ℚ → ℚ
  silu : ℚ → ℚ
  gelu : ℚ → ℚ
  sqrt : ℚ → ℚ
  pi : ℚ
  fpow : ℚ → ℚ → ℚ

/-- Python int() applied to a float: truncation toward zero. -/
def pyInt (q : ℚ) : ℤ := if 0 ≤ q then ⌊q⌋ else ⌈q⌉

/-- An nn.Linear layer: weight (out, in) and bias (out). -/
structure Linear where
  w : ℕ → ℕ → ℚ
  b : ℕ → ℚ

/-- Application of a linear layer to a vector, summing over the input
dimension. -/
def Linear.app (l : Linear) (inDim : ℕ) (x : ℕ → ℚ) (o : ℕ) : ℚ :=
  (∑ i ∈ Finset.range inDim, l.w o i * x i) + l.b o

/-- nn.LayerNorm with no learned affine parameters and eps = 1e-6, over a
vector of length D (mean and biased variance over the last dimension). -/
def layerNorm (P : Prims) (D : ℕ) (x : ℕ → ℚ) (d : ℕ) : ℚ :=
  let mu := (∑ i ∈ Finset.range D, x i) / D
  let var := (∑ i ∈ Finset.range D, (x i - mu) ^ 2) / D
  (x d - mu) / P.sqrt (var + 1 / 1000000)

/-- The modulate helper of build_models.py: x * (1 + scale) + shift with the
shift/scale vectors broadcast over the token axis. -/
def modulate (x : T3) (shift scale : T2) : T3 :=
  fun b l d => x b l d * (1 + scale b d) + shift b d

/-- Softmax over the first n coordinates, with the framework exp. -/
def softmax (P : Prims) (n : ℕ) (v : ℕ → ℚ) (j : ℕ) : ℚ :=
  P.exp (v j) / ∑ q ∈ Finset.range n, P.exp (v q)

/-!  Stable argsort, modelling torch.argsort along dim=1: the result at
position q is the index holding the q-th smallest value, ties broken by
index. -/

/-- Number of indices below L strictly preceding i in the (value, index)
lexicographic order; this is the sorted position of index i. -/
def rankOf (L : ℕ) (v : ℕ → ℚ) (i : ℕ) : ℕ :=
  ((Finset.range L).filter (fun j => v j < v i ∨ (v j = v i ∧ j < i))).card

/-- The index whose sorted position is q (stable argsort of v restricted to
indices below L). -/
def argsortFn (L : ℕ) (v : ℕ → ℚ) (q : ℕ) : ℕ :=
  ((List.range L).find? (fun i => rankOf L v i == q)).getD 0

/-- RelativePositionBias: learned table of shape
[(2h-1)(2w-1)+3, num_heads] plus the fixed pairwise index. -/
structure RelativePositionBias where
  h : ℕ
  w : ℕ
  table : ℕ → ℕ → ℚ

/-- Size of the relative-position table: (2h-1)(2w-1)+3. -/
def num_relative_distance (h w : ℕ) : ℕ := (2 * h - 1) * (2 * w - 1) + 3

/-- The fixed relative-position index of RelativePositionBias.__init__: the
signed row/col offsets of the pair (i, j) of flattened grid positions,
shifted to be non-negative, with the row offset scaled by 2w-1 and the two
summed. -/
def relPosIndex (h w i j : ℕ) : ℤ :=
  (((i / w : ℕ) : ℤ) - ((j / w : ℕ) : ℤ) + (h : ℤ) - 1) * (2 * (w : ℤ) - 1) +
    (((i % w : ℕ) : ℤ) - ((j % w : ℕ) : ℤ) + (w : ℤ) - 1)

/-- RelativePositionBias.forward: gather the table through the fixed index
and put heads first: result (head, i, j). -/
def RelativePositionBias.fwd (rpb : RelativePositionBias) (hd i j : ℕ) : ℚ :=
  rpb.table (relPosIndex rpb.h rpb.w i j).toNat hd

/-- torch.gather along dim 2 of a (B, heads, L, L) tensor with a per-sample
index on the row axis. -/
def gatherRows (t : ℕ → ℕ → ℕ → ℕ → ℚ) (idx : ℕ → ℕ → ℕ) : ℕ → ℕ → ℕ → ℕ → ℚ :=
  fun b hd i j => t b hd (idx b i) j

/-- torch.gather along dim 3 of a (B, heads, L, L) tensor with a per-sample
index on the column axis. -/
def gatherCols (t : ℕ → ℕ → ℕ → ℕ → ℚ) (idx : ℕ → ℕ → ℕ) : ℕ → ℕ → ℕ → ℕ → ℚ :=
  fun b hd i j => t b hd i (idx b j)

/-- Attention.get_masked_rel_bias: broadcast the full bias over the batch and
gather rows then columns with ids_keep. -/
def get_masked_rel_bias (rpb : RelativePositionBias) (ids_keep : ℕ → ℕ → ℕ) :
    ℕ → ℕ → ℕ → ℕ → ℚ :=
  gatherCols (gatherRows (fun _ hd i j => rpb.fwd hd i j) ids_keep) ids_keep

/-- The Attention module: qkv and proj linears, per-head scale and the
relative position bias.  Dropout probabilities are zero throughout the model,
so the dropout layers are identities and are omitted. -/
structure Attention where
  num_heads : ℕ
  scale : ℚ
  qkv : Linear
  proj : Linear
  rel_pos_bias : RelativePositionBias

/-- Attention.forward on a batch of N tokens of width C: scaled dot-product
attention with the (possibly ids_keep-gathered) relative bias added to the
logits before softmax. -/
def Attention.fwd (A : Attention) (P : Prims) (N C : ℕ) (x : T3)
    (ids_keep : Option (ℕ → ℕ → ℕ)) : T3 :=
  let hd := C / A.num_heads
  let qkvOut : T3 := fun b l o => A.qkv.app C (x b l) o
  let qv := fun b hh l e => qkvOut b l (hh * hd + e)
  let kv := fun b hh l e => qkvOut b l (C + hh * hd + e)
  let vv := fun b hh l e => qkvOut b l (2 * C + hh * hd + e)
  let rp : ℕ → ℕ → ℕ → ℕ → ℚ :=
    match ids_keep with
    | some idk => get_masked_rel_bias A.rel_pos_bias idk
    | none => fun _ hh i j => A.rel_pos_bias.fwd hh i j
  let attn := fun b hh i j =>
    (∑ e ∈ Finset.range hd, qv b hh i e * kv b hh j e) * A.scale + rp b hh i j
  let attnW := fun b hh i j => softmax P N (attn b hh i) j
  let outv := fun b hh i e => ∑ j ∈ Finset.range N, attnW b hh i j * vv b hh j e
  fun b i cc => A.proj.app C (fun f => outv b (f / hd) i (f % hd)) cc

/-- The timm Mlp used inside each block: fc1, GELU(tanh), fc2, dropout 0. -/
structure Mlp where
  fc1 : Linear
  fc2 : Linear

/-- Mlp.forward on a vector of width inD with hidden width hidD. -/
def Mlp.fwd (m : Mlp) (P : Prims) (inD hidD : ℕ) (x : ℕ → ℚ) (o : ℕ) : ℚ :=
  m.fc2.app hidD (fun hh => P.gelu (m.fc1.app inD x hh)) o

/-- An MDT block: attention, mlp and the adaLN-Zero modulation network
(SiLU followed by a Linear producing six chunks). -/
structure MDTBlock where
  attn : Attention
  mlp : Mlp
  adaLN : Linear

/-- MDTBlock.forward: the six modulation chunks are, in order, shift_msa,
scale_msa, gate_msa, shift_mlp, scale_mlp, gate_mlp; pre-norm residual
attention then pre-norm residual mlp, each gated. -/
def MDTBlock.fwd (blk : MDTBlock) (P : Prims) (N D mlpHid : ℕ) (x : T3) (c : T2)
    (ids_keep : Option (ℕ → ℕ → ℕ)) : T3 :=
  let mod : T2 := fun b o => blk.adaLN.app D (fun i => P.silu (c b i)) o
  let shift_msa : T2 := fun b d => mod b d
  let scale_msa : T2 := fun b d => mod b (D + d)
  let gate_msa : T2 := fun b d => mod b (2 * D + d)
  let shift_mlp : T2 := fun b d => mod b (3 * D + d)
  let scale_mlp : T2 := fun b d => mod b (4 * D + d)
  let gate_mlp : T2 := fun b d => mod b (5 * D + d)
  let n1 : T3 := fun b l d => layerNorm P D (x b l) d
  let x1 : T3 := fun b l d =>
    x b l d + gate_msa b d *
      blk.attn.fwd P N D (modulate n1 shift_msa scale_msa) ids_keep b l d
  let n2 : T3 := fun b l d => layerNorm P D (x1 b l) d
  fun b l d =>
    x1 b l d + gate_mlp b d *
      blk.mlp.fwd P D mlpHid (fun dd => modulate n2 shift_mlp scale_mlp b l dd) d

/-- The final layer of MDT: shift/scale modulation (no gate) then a linear
map to patch_size^2 * out_channels. -/
structure FinalLayer where
  linear : Linear
  adaLN : Linear

/-- FinalLayer.forward. -/
def FinalLayer.fwd (fl : FinalLayer) (P : Prims) (D : ℕ) (x : T3) (c : T2) : T3 :=
  let mod : T2 := fun b o => fl.adaLN.app D (fun i => P.silu (c b i)) o
  let shift : T2 := fun b d => mod b d
  let scale : T2 := fun b d => mod b (D + d)
  fun b l o =>
    fl.linear.app D
      (fun d => layerNorm P D (x b l) d * (1 + scale b d) + shift b d) o

/-- TimestepEmbedder.timestep_embedding: log-spaced frequencies, cos block
then sin block (and a zero pad column when dim is odd). -/
def timestep_embedding (P : Prims) (dim : ℕ) (t : ℚ) (i : ℕ) : ℚ :=
  let half := dim / 2
  if i < half then P.cos (t * P.exp (-(P.log 10000) * (i : ℚ) / (half : ℚ)))
  else if i < 2 * half then
    P.sin (t * P.exp (-(P.log 10000) * ((i - half : ℕ) : ℚ) / (half : ℚ)))
  else 0

/-- TimestepEmbedder: sinusoidal features followed by Linear, SiLU, Linear. -/
structure TimestepEmbedder where
  freqSize : ℕ
  fc1 : Linear
  fc2 : Linear

/-- TimestepEmbedder.forward producing a hidden-size vector. -/
def TimestepEmbedder.fwd (te : TimestepEmbedder) (P : Prims) (hidden : ℕ)
    (t : ℚ) (o : ℕ) : ℚ :=
  te.fc2.app hidden
    (fun hh => P.silu (te.fc1.app te.freqSize (timestep_embedding P te.freqSize t) hh)) o

/-- LabelEmbedder: embedding table (with an extra null row iff
dropout_prob > 0) and the label-dropout probability. -/
structure LabelEmbedder where
  num_classes : ℕ
  dropout_prob : ℚ
  table : ℕ → ℕ → ℚ

/-- LabelEmbedder.token_drop: replace a label by the null index num_classes
where the dropout draw fires, or where force_drop_ids equals 1. -/
def LabelEmbedder.token_drop (le : LabelEmbedder) (labels : ℕ → ℕ) (rand : ℕ → ℚ)
    (force : Option (ℕ → ℤ)) : ℕ → ℕ :=
  let drop : ℕ → Bool :=
    match force with
    | none => fun n => decide (rand n < le.dropout_prob)
    | some f => fun n => decide (f n = 1)
  fun n => if drop n then le.num_classes else labels n

/-- The labels actually embedded by LabelEmbedder.forward: token_drop is
applied when (train and dropout_prob > 0) or force_drop_ids is supplied. -/
def LabelEmbedder.effective_labels (le : LabelEmbedder) (labels : ℕ → ℕ)
    (train : Bool) (rand : ℕ → ℚ) (force : Option (ℕ → ℤ)) : ℕ → ℕ :=
  if (train && decide (0 < le.dropout_prob)) || force.isSome then
    le.token_drop labels rand force
  else labels

/-- LabelEmbedder.forward: embed the (possibly dropped) labels. -/
def LabelEmbedder.fwd (le : LabelEmbedder) (labels : ℕ → ℕ) (train : Bool)
    (rand : ℕ → ℚ) (force : Option (ℕ → ℤ)) : T2 :=
  fun n d => le.table (le.effective_labels labels train rand force n) d

/-- The learned weights of the timm PatchEmbed convolution (kernel = stride =
patch_size): weight (out_dim, in_channel, ki, kj) and bias. -/
structure PatchEmbedW where
  w : ℕ → ℕ → ℕ → ℕ → ℚ
  b : ℕ → ℚ

/-- PatchEmbed.forward: the strided convolution flattened row-major over the
g x g patch grid, token l covering rows (l/g)p.. and cols (l%g)p.. . -/
def patchEmbedF (pe : PatchEmbedW) (inC p g : ℕ) (img : T4) : T3 :=
  fun bt l d =>
    (∑ cc ∈ Finset.range inC, ∑ pi ∈ Finset.range p, ∑ pj ∈ Finset.range p,
        pe.w d cc pi pj * img bt cc ((l / g) * p + pi) ((l % g) * p + pj))
      + pe.b d

/-- get_1d_sincos_pos_embed_from_grid: sin block then cos block, with
frequencies 1 / 10000^(k/(d/2)). -/
def get_1d_sincos (P : Prims) (d : ℕ) (pos : ℚ) (k : ℕ) : ℚ :=
  let half := d / 2
  if k < half then P.sin (pos * (1 / P.fpow 10000 ((k : ℚ) / (half : ℚ))))
  else P.cos (pos * (1 / P.fpow 10000 (((k - half : ℕ) : ℚ) / (half : ℚ))))

/-- get_2d_sincos_pos_embed at flattened grid position pp: first half of the
features embeds the column coordinate (grid[0], w fastest), second half the
row coordinate. -/
def get_2d_sincos (P : Prims) (d gs pp k : ℕ) : ℚ :=
  if k < d / 2 then get_1d_sincos P (d / 2) ((pp % gs : ℕ) : ℚ) k
  else get_1d_sincos P (d / 2) ((pp / gs : ℕ) : ℚ) (k - d / 2)

/-- The MDT model state: configuration sizes plus every learned tensor. -/
structure MDTModel where
  input_size : ℕ
  patch_size : ℕ
  in_channels : ℕ
  out_channels : ℕ
  hidden_size : ℕ
  num_heads : ℕ
  mlp_ratio : ℚ
  learn_sigma : Bool
  x_embedder : PatchEmbedW
  t_embedder : TimestepEmbedder
  y_embedder : LabelEmbedder
  pos_embed : ℕ → ℕ → ℚ
  decoder_pos_embed : ℕ → ℕ → ℚ
  blocks : List MDTBlock
  sideblocks : List MDTBlock
  final_layer : FinalLayer
  mask_token : ℕ → ℚ
  mask_ratio : Option ℚ
  decode_layer : ℤ
  training : Bool

/-- Patch-grid side length: input_size / patch_size. -/
def MDTModel.grid (m : MDTModel) : ℕ := m.input_size / m.patch_size

/-- Number of patch tokens. -/
def MDTModel.num_patches (m : MDTModel) : ℕ := m.grid * m.grid

/-- Hidden width of the block Mlp: int(hidden_size * mlp_ratio). -/
def MDTModel.mlpHidden (m : MDTModel) : ℕ :=
  (pyInt ((m.hidden_size : ℚ) * m.mlp_ratio)).toNat

/-- random_masking: len_keep = int(L * (1 - mask_ratio)). -/
def len_keep (L : ℕ) (r : ℚ) : ℕ := (pyInt ((L : ℚ) * (1 - r))).toNat

/-- random_masking: ids_shuffle = argsort(noise) per sample. -/
def ids_shuffle (L : ℕ) (noise : T2) (n : ℕ) : ℕ → ℕ := argsortFn L (noise n)

/-- random_masking: ids_restore = argsort(ids_shuffle) per sample. -/
def ids_restore (L : ℕ) (noise : T2) (n : ℕ) : ℕ → ℕ :=
  argsortFn L (fun j => ((ids_shuffle L noise n j : ℕ) : ℚ))

/-- random_masking: the kept (gathered) token sequence; position q holds the
token at ids_shuffle q (only positions below len_keep are part of the
result's extent). -/
def x_masked (L : ℕ) (noise : T2) (x : T3) : T3 :=
  fun n q d => x n (ids_shuffle L noise n q) d

/-- random_masking: the restored binary mask, 0 = keep and 1 = remove; a
keep/remove pattern of lk zeros then ones, unshuffled through ids_restore. -/
def mask_from (L lk : ℕ) (noise : T2) : T2 :=
  fun n j => if ids_restore L noise n j < lk then 0 else 1

/-- forward_side_interpolater before the side block: append mask tokens to
the lk kept tokens, unshuffle through ids_restore and add the decoder
position embedding. -/
def MDTModel.sideBefore (m : MDTModel) (lk : ℕ) (x : T3) (idr : ℕ → ℕ → ℕ) : T3 :=
  fun b j d =>
    (if idr b j < lk then x b (idr b j) d else m.mask_token d) +
      m.decoder_pos_embed j d

/-- forward_side_interpolater after the side block: the dedicated side blocks
run on the reconstituted full sequence with no ids_keep restriction. -/
def MDTModel.sideAfter (m : MDTModel) (P : Prims) (L D mlpHid : ℕ) (xb : T3)
    (c : T2) : T3 :=
  m.sideblocks.foldl (fun acc sb => sb.fwd P L D mlpHid acc c none) xb

/-- MDT.forward_side_interpolater: unshuffle with mask tokens, run the side
block, then the masked shortcut x * mask + (1 - mask) * x_before. -/
def MDTModel.forward_side_interpolater (m : MDTModel) (P : Prims)
    (L lk D mlpHid : ℕ) (x : T3) (c : T2) (mask : T2) (idr : ℕ → ℕ → ℕ) : T3 :=
  fun b j d =>
    m.sideAfter P L D mlpHid (m.sideBefore lk x idr) c b j d * mask b j +
      (1 - mask b j) * m.sideBefore lk x idr b j d

/-- MDT.unpatchify with out_channels c, patch p and grid side g. -/
def unpatchifyF (c p g : ℕ) (x : T3) : T4 :=
  fun b ch i j =>
    x b ((i / p) * g + j / p) ((i % p) * (p * c) + (j % p) * c + ch)

/-- The token sequence entering the backbone: patch embedding plus position
embedding. -/
def MDTModel.x0 (m : MDTModel) (img : T4) : T3 :=
  fun b l d =>
    patchEmbedF m.x_embedder m.in_channels m.patch_size m.grid img b l d +
      m.pos_embed l d

/-- The conditioning vector c = timestep embedding + label embedding. -/
def MDTModel.cond (m : MDTModel) (P : Prims) (t : ℕ → ℚ) (y : ℕ → ℕ)
    (lrand : ℕ → ℚ) : T2 :=
  fun b d =>
    m.t_embedder.fwd P m.hidden_size (t b) d +
      m.y_embedder.fwd y m.training lrand none b d

/-- The block loop of MDT.forward: at index len(blocks) - decode_layer either
the side interpolater runs (masking active) or the decoder position embedding
is added; blocks before the splice receive ids_keep while masking is
active. -/
def MDTModel.backbone (m : MDTModel) (P : Prims) (x0 : T3) (c : T2)
    (enable_mask : Bool) (noise : T2) : T3 :=
  let D := m.hidden_size
  let L := m.num_patches
  let mlpHid := m.mlpHidden
  let spliceAt : ℤ := (m.blocks.length : ℤ) - m.decode_layer
  match m.mask_ratio, enable_mask with
  | some r, true =>
    let lk := len_keep L r
    let xm : T3 := x_masked L noise x0
    let mask : T2 := mask_from L lk noise
    let idk := ids_shuffle L noise
    let step := fun (st : T3 × Bool) (iblk : ℕ × MDTBlock) =>
      let x := if (iblk.1 : ℤ) = spliceAt then
          m.forward_side_interpolater P L lk D mlpHid st.1 c mask (ids_restore L noise)
        else st.1
      let ms := if (iblk.1 : ℤ) = spliceAt then false else st.2
      (iblk.2.fwd P (if ms then lk else L) D mlpHid x c (if ms then some idk else none), ms)
    (m.blocks.enum.foldl step (xm, true)).1
  | _, _ =>
    let step := fun (x : T3) (iblk : ℕ × MDTBlock) =>
      let x := if (iblk.1 : ℤ) = spliceAt then
          (fun b l d => x b l d + m.decoder_pos_embed l d) else x
      iblk.2.fwd P L D mlpHid x c none
    m.blocks.enum.foldl step x0

/-- MDT.forward.  The masking noise and the label-dropout draws are explicit
random streams: embed, condition, run the backbone with its side-path
splice, apply the final layer and unpatchify. -/
def MDTModel.fwd (m : MDTModel) (P : Prims) (img : T4) (t : ℕ → ℚ) (y : ℕ → ℕ)
    (enable_mask : Bool) (noise : T2) (lrand : ℕ → ℚ) : T4 :=
  unpatchifyF m.out_channels m.patch_size m.grid
    (FinalLayer.fwd m.final_layer P m.hidden_size
      (m.backbone P (m.x0 img) (m.cond P t y lrand) enable_mask noise)
      (m.cond P t y lrand))

/-- The power-cos guidance schedule of forward_with_cfg:
(1 - cos(((1 - t/T)^scale_pow) * pi)) / 2. -/
def scaleStep (P : Prims) (t diffusionSteps scalePow : ℚ) : ℚ :=
  (1 - P.cos (P.fpow (1 - t / diffusionSteps) scalePow * P.pi)) * 1 / 2

/-- real_cfg_scale = (cfg_scale - 1) * scale_step + 1. -/
def realCfgScale (P : Prims) (cfgScale t diffusionSteps scalePow : ℚ) : ℚ :=
  (cfgScale - 1) * scaleStep P t diffusionSteps scalePow + 1

/-- half_eps = uncond_eps + real_cfg_scale * (cond_eps - uncond_eps). -/
def half_eps (uncond cond rcs : ℚ) : ℚ := uncond + rcs * (cond - uncond)

/-- The cat([half, half]) batch duplication of forward_with_cfg. -/
def cfgCombine (B : ℕ) (x : T4) : T4 :=
  fun b ch i j => x (if b < B / 2 then b else b - B / 2) ch i j

/-- MDT.forward_with_cfg.  B is the input batch length.  The eps/rest split
is at channel 3 as in the source (model_out[:, :3] and model_out[:, 3:],
where slicing clamps to out_channels), eps of the two halves is recombined
from the conditional and unconditional halves with real_cfg_scale, and rest
passes through. -/
def MDTModel.forward_with_cfg (m : MDTModel) (P : Prims) (B : ℕ) (x : T4)
    (t : ℕ → ℚ) (y : ℕ → ℕ) (cfg_scale : Option ℚ)
    (diffusion_steps scale_pow : ℚ) (noise : T2) (lrand : ℕ → ℚ) : T4 :=
  match cfg_scale with
  | some s =>
    let half := B / 2
    let model_out := m.fwd P (cfgCombine B x) t y false noise lrand
    let e3 := min 3 m.out_channels
    let cond_eps : T4 := fun b ch i j => model_out b ch i j
    let uncond_eps : T4 := fun b ch i j => model_out (half + b) ch i j
    let rcs := fun b => realCfgScale P s (t b) diffusion_steps scale_pow
    let heps : T4 := fun b ch i j =>
      half_eps (uncond_eps b ch i j) (cond_eps b ch i j) (rcs b)
    let eps : T4 := fun b ch i j =>
      if b < half then heps b ch i j else heps (b - half) ch i j
    fun b ch i j => if ch < e3 then eps b ch i j else model_out b (ch - e3 + 3) i j
  | none =>
    let model_out := m.fwd P x t y false noise lrand
    let e3 := min 3 m.out_channels
    fun b ch i j => if ch < e3 then model_out b ch i j else model_out b (ch - e3 + 3) i j

/-- The constructor arguments of MDT.__init__. -/
structure MDTConfig where
  input_size : ℕ
  patch_size : ℕ
  in_channels : ℕ
  hidden_size : ℕ
  depth : ℕ
  num_heads : ℕ
  mlp_ratio : ℚ
  class_dropout_prob : ℚ
  num_classes : ℕ
  learn_sigma : Bool
  mask_ratio : Option ℚ
  decode_layer : Option ℤ

/-- The random draws consumed by construction: xavier/normal weight samples
for every randomly initialised tensor (biases are zeroed deterministically
by the basic init, and the adaLN / final-layer tensors are zeroed). -/
structure InitRandom where
  convW : ℕ → ℕ → ℕ → ℕ → ℚ
  tFc1W : ℕ → ℕ → ℚ
  tFc2W : ℕ → ℕ → ℚ
  yTable : ℕ → ℕ → ℚ
  qkvW : ℕ → ℕ → ℕ → ℚ
  projW : ℕ → ℕ → ℕ → ℚ
  fc1W : ℕ → ℕ → ℕ → ℚ
  fc2W : ℕ → ℕ → ℕ → ℚ
  rpbTable : ℕ → ℕ → ℕ → ℚ
  sQkvW : ℕ → ℕ → ℚ
  sProjW : ℕ → ℕ → ℚ
  sFc1W : ℕ → ℕ → ℚ
  sFc2W : ℕ → ℕ → ℚ
  sRpbTable : ℕ → ℕ → ℚ
  maskTok : ℕ → ℚ

/-- MDT.__init__ followed by initialize_weights.  Construction fails (none)
exactly where the Python constructor raises: patch_size = 0 (grid division),
num_heads = 0 or hidden_size // num_heads = 0 (head_dim ** -0.5 divides by
zero), int(hidden_size * mlp_ratio) negative (the block Mlp would hand
nn.Linear a negative hidden width), hidden_size not divisible by 4 (the
sin-cos helpers assert even splits), or decode_layer = None (int(None)).
No other configuration is validated.  Weight tensors sampled randomly in the
source are taken from the InitRandom streams; the deterministic zero
initialisations are applied. -/
def MDT_init (cfg : MDTConfig) (R : InitRandom) (P : Prims) : Option MDTModel :=
  if cfg.patch_size = 0 then none
  else if cfg.num_heads = 0 ∨ cfg.hidden_size / cfg.num_heads = 0 then none
  else if pyInt ((cfg.hidden_size : ℚ) * cfg.mlp_ratio) < 0 then none
  else if cfg.hidden_size % 2 ≠ 0 ∨ (cfg.hidden_size / 2) % 2 ≠ 0 then none
  else
    match cfg.decode_layer with
    | none => none
    | some dl =>
      let g := cfg.input_size / cfg.patch_size
      let np := g * g
      let win := Nat.sqrt np
      let hscale := P.fpow ((cfg.hidden_size / cfg.num_heads : ℕ) : ℚ) (-(1 / 2))
      some
        { input_size := cfg.input_size
          patch_size := cfg.patch_size
          in_channels := cfg.in_channels
          out_channels := if cfg.learn_sigma then 2 * cfg.in_channels else cfg.in_channels
          hidden_size := cfg.hidden_size
          num_heads := cfg.num_heads
          mlp_ratio := cfg.mlp_ratio
          learn_sigma := cfg.learn_sigma
          x_embedder := { w := R.convW, b := fun _ => 0 }
          t_embedder :=
            { freqSize := 256
              fc1 := { w := R.tFc1W, b := fun _ => 0 }
              fc2 := { w := R.tFc2W, b := fun _ => 0 } }
          y_embedder :=
            { num_classes := cfg.num_classes
              dropout_prob := cfg.class_dropout_prob
              table := R.yTable }
          pos_embed := fun l d => get_2d_sincos P cfg.hidden_size g l d
          decoder_pos_embed := fun l d => get_2d_sincos P cfg.hidden_size g l d
          blocks := (List.range cfg.depth).map fun i =>
            { attn :=
                { num_heads := cfg.num_heads
                  scale := hscale
                  qkv := { w := R.qkvW i, b := fun _ => 0 }
                  proj := { w := R.projW i, b := fun _ => 0 }
                  rel_pos_bias := { h := win, w := win, table := R.rpbTable i } }
              mlp :=
                { fc1 := { w := R.fc1W i, b := fun _ => 0 }
                  fc2 := { w := R.fc2W i, b := fun _ => 0 } }
              adaLN := { w := fun _ _ => 0, b := fun _ => 0 } }
          sideblocks :=
            [ { attn :=
                  { num_heads := cfg.num_heads
                    scale := hscale
                    qkv := { w := R.sQkvW, b := fun _ => 0 }
                    proj := { w := R.sProjW, b := fun _ => 0 }
                    rel_pos_bias := { h := win, w := win, table := R.sRpbTable } }
                mlp :=
                  { fc1 := { w := R.sFc1W, b := fun _ => 0 }
                    fc2 := { w := R.sFc2W, b := fun _ => 0 } }
                adaLN := { w := fun _ _ => 0, b := fun _ => 0 } } ]
          final_layer :=
            { linear := { w := fun _ _ => 0, b := fun _ => 0 }
              adaLN := { w := fun _ _ => 0, b := fun _ => 0 } }
          mask_token := if cfg.mask_ratio.isSome then R.maskTok else fun _ => 0
          mask_ratio := cfg.mask_ratio
          decode_layer := dl
          training := true }

/-- The deterministic zero initialisations performed by initialize_weights:
all adaLN modulation linears (blocks, side blocks and final layer) and the
final projection start at exactly zero. -/
def ZeroInitialized (m : MDTModel) : Prop :=
  (∀ blk ∈ m.blocks, blk.adaLN.w = (fun _ _ => 0) ∧ blk.adaLN.b = (fun _ => 0)) ∧
  (∀ blk ∈ m.sideblocks, blk.adaLN.w = (fun _ _ => 0) ∧ blk.adaLN.b = (fun _ => 0)) ∧
  m.final_layer.adaLN.w = (fun _ _ => 0) ∧ m.final_layer.adaLN.b = (fun _ => 0) ∧
  m.final_layer.linear.w = (fun _ _ => 0) ∧ m.final_layer.linear.b = (fun _ => 0)

/-! Properties of the stable argsort. -/

lemma rankOf_lt {L : ℕ} {v : ℕ → ℚ} {i : ℕ} (hi : i < L) : rankOf L v i < L := by
  have hsub :
      ((Finset.range L).filter (fun j => v j < v i ∨ (v j = v i ∧ j < i))) ⊆
        (Finset.range L).erase i := by
    intro j hj
    rcases Finset.mem_filter.mp hj with ⟨hjr, hj2⟩
    refine Finset.mem_erase.mpr ⟨?_, hjr⟩
    rcases hj2 with hlt | ⟨_, hjlt⟩
    · rintro rfl; exact lt_irrefl _ hlt
    · exact Nat.ne_of_lt hjlt
  have h1 : rankOf L v i ≤ ((Finset.range L).erase i).card := Finset.card_le_card hsub
  rw [Finset.card_erase_of_mem (Finset.mem_range.mpr hi), Finset.card_range] at h1
  omega

lemma rankOf_lt_rankOf {L : ℕ} {v : ℕ → ℚ} {i j : ℕ} (hi : i < L) (hj : j < L)
    (hij : v i < v j ∨ (v i = v j ∧ i < j)) : rankOf L v i < rankOf L v j := by
  have hmemj : i ∈ (Finset.range L).filter (fun q => v q < v j ∨ (v q = v j ∧ q < j)) :=
    Finset.mem_filter.mpr ⟨Finset.mem_range.mpr hi, hij⟩
  have hnoti : i ∉ (Finset.range L).filter (fun q => v q < v i ∨ (v q = v i ∧ q < i)) := by
    simp
  apply Finset.card_lt_card
  rw [Finset.ssubset_def]
  constructor
  · intro q hq
    rcases Finset.mem_filter.mp hq with ⟨hqr, hq2⟩
    refine Finset.mem_filter.mpr ⟨hqr, ?_⟩
    rcases hq2 with hqlt | ⟨hqe, hqi⟩
    · rcases hij with h2 | ⟨h2, _⟩
      · exact Or.inl (lt_trans hqlt h2)
      · exact Or.inl (h2 ▸ hqlt)
    · rcases hij with h2 | ⟨h2, h3⟩
      · exact Or.inl (hqe ▸ h2)
      · exact Or.inr ⟨hqe.trans h2, lt_trans hqi h3⟩
  · intro hsub
    exact hnoti (hsub hmemj)

lemma rankOf_injOn {L : ℕ} {v : ℕ → ℚ} {i j : ℕ} (hi : i < L) (hj : j < L)
    (hr : rankOf L v i = rankOf L v j) : i = j := by
  by_contra hne
  rcases lt_trichotomy (v i) (v j) with hv | hv | hv
  · exact absurd hr (Nat.ne_of_lt (rankOf_lt_rankOf hi hj (Or.inl hv)))
  · rcases Nat.lt_or_ge i j with hij | hij
    · exact absurd hr (Nat.ne_of_lt (rankOf_lt_rankOf hi hj (Or.inr ⟨hv, hij⟩)))
    · have hji : j < i := lt_of_le_of_ne hij (Ne.symm hne)
      exact absurd hr.symm (Nat.ne_of_lt (rankOf_lt_rankOf hj hi (Or.inr ⟨hv.symm, hji⟩)))
  · exact absurd hr.symm (Nat.ne_of_lt (rankOf_lt_rankOf hj hi (Or.inl hv)))

lemma exists_rankOf_eq {L : ℕ} {v : ℕ → ℚ} {q : ℕ} (hq : q < L) :
    ∃ i, i < L ∧ rankOf L v i = q := by
  have hsurj :=
    Finset.surj_on_of_inj_on_of_card_le (s := Finset.range L) (t := Finset.range L)
      (fun a _ => rankOf L v a)
      (fun a ha => Finset.mem_range.mpr (rankOf_lt (Finset.mem_range.mp ha)))
      (fun a₁ a₂ ha₁ ha₂ h =>
        rankOf_injOn (Finset.mem_range.mp ha₁) (Finset.mem_range.mp ha₂) h)
      le_rfl
  obtain ⟨a, ha, hqa⟩ := hsurj q (Finset.mem_range.mpr hq)
  exact ⟨a, Finset.mem_range.mp ha, hqa.symm⟩

lemma argsortFn_spec {L : ℕ} {v : ℕ → ℚ} {q : ℕ} (hq : q < L) :
    argsortFn L v q < L ∧ rankOf L v (argsortFn L v q) = q := by
  obtain ⟨i, hiL, hri⟩ := exists_rankOf_eq (v := v) hq
  cases hfind : (List.range L).find? (fun i => rankOf L v i == q) with
  | none =>
    exfalso
    have hnone := List.find?_eq_none.mp hfind i (List.mem_range.mpr hiL)
    simp [hri] at hnone
  | some a =>
    have hp := List.find?_some hfind
    simp only [beq_iff_eq] at hp
    have ha : a ∈ List.range L := List.mem_of_find?_eq_some hfind
    have hval : argsortFn L v q = a := by simp [argsortFn, hfind]
    rw [hval]
    exact ⟨List.mem_range.mp ha, hp⟩

lemma argsortFn_lt {L : ℕ} {v : ℕ → ℚ} {q : ℕ} (hq : q < L) : argsortFn L v q < L :=
  (argsortFn_spec hq).1

lemma rankOf_argsortFn {L : ℕ} {v : ℕ → ℚ} {q : ℕ} (hq : q < L) :
    rankOf L v (argsortFn L v q) = q :=
  (argsortFn_spec hq).2

lemma argsortFn_rankOf {L : ℕ} {v : ℕ → ℚ} {i : ℕ} (hi : i < L) :
    argsortFn L v (rankOf L v i) = i :=
  rankOf_injOn (argsortFn_lt (rankOf_lt hi)) hi (rankOf_argsortFn (rankOf_lt hi))

lemma argsortFn_injOn {L : ℕ} {v : ℕ → ℚ} {q q' : ℕ} (hq : q < L) (hq' : q' < L)
    (h : argsortFn L v q = argsortFn L v q') : q = q' := by
  have h1 := rankOf_argsortFn (v := v) hq
  have h2 := rankOf_argsortFn (v := v) hq'
  rw [← h1, ← h2, h]

lemma argsortFn_surjOn {L : ℕ} {v : ℕ → ℚ} {i : ℕ} (hi : i < L) :
    ∃ q, q < L ∧ argsortFn L v q = i :=
  ⟨rankOf L v i, rankOf_lt hi, argsortFn_rankOf hi⟩

lemma rankOf_natCast_eq {L : ℕ} (g : ℕ → ℕ)
    (hmem : ∀ q, q < L → g q < L)
    (hinj : ∀ q, q < L → ∀ j, j < L → g q = g j → q = j)
    (hsurj : ∀ mm, mm < L → ∃ q, q < L ∧ g q = mm)
    {i : ℕ} (hi : i < L) :
    rankOf L (fun q => ((g q : ℕ) : ℚ)) i = g i := by
  unfold rankOf
  have hfe :
      (Finset.range L).filter
          (fun j => ((g j : ℕ) : ℚ) < ((g i : ℕ) : ℚ) ∨
            (((g j : ℕ) : ℚ) = ((g i : ℕ) : ℚ) ∧ j < i)) =
        (Finset.range L).filter (fun j => g j < g i) := by
    apply Finset.filter_congr
    intro j hj
    have hjL := Finset.mem_range.mp hj
    constructor
    · intro hcase
      rcases hcase with hlt | ⟨heq, hji⟩
      · exact_mod_cast hlt
      · have : g j = g i := by exact_mod_cast heq
        have : j = i := hinj j hjL i hi this
        omega
    · intro hlt
      exact Or.inl (by exact_mod_cast hlt)
  rw [hfe]
  have hcard :
      ((Finset.range L).filter (fun j => g j < g i)).card = (Finset.range (g i)).card := by
    apply Finset.card_bij (fun a _ => g a)
    · intro a ha
      exact Finset.mem_range.mpr (Finset.mem_filter.mp ha).2
    · intro a₁ ha₁ a₂ ha₂ h
      exact hinj a₁ (Finset.mem_range.mp (Finset.mem_filter.mp ha₁).1) a₂
        (Finset.mem_range.mp (Finset.mem_filter.mp ha₂).1) h
    · intro b hb
      have hbgi : b < g i := Finset.mem_range.mp hb
      have hbL : b < L := lt_trans hbgi (hmem i hi)
      obtain ⟨q, hqL, hqb⟩ := hsurj b hbL
      refine ⟨q, Finset.mem_filter.mpr ⟨Finset.mem_range.mpr hqL, ?_⟩, hqb⟩
      omega
  simpa using hcard

lemma card_filter_lt_of_bij (L K : ℕ) (f : ℕ → ℕ)
    (hmem : ∀ i, i < L → f i < L)
    (hinj : ∀ i, i < L → ∀ j, j < L → f i = f j → i = j)
    (hsurj : ∀ mm, mm < L → ∃ i, i < L ∧ f i = mm)
    (hK : K ≤ L) :
    ((Finset.range L).filter (fun j => f j < K)).card = K := by
  have hcard :
      ((Finset.range L).filter (fun j => f j < K)).card = (Finset.range K).card := by
    apply Finset.card_bij (fun a _ => f a)
    · intro a ha
      exact Finset.mem_range.mpr (Finset.mem_filter.mp ha).2
    · intro a₁ ha₁ a₂ ha₂ h
      exact hinj a₁ (Finset.mem_range.mp (Finset.mem_filter.mp ha₁).1) a₂
        (Finset.mem_range.mp (Finset.mem_filter.mp ha₂).1) h
    · intro b hb
      have hbK : b < K := Finset.mem_range.mp hb
      obtain ⟨i, hiL, hib⟩ := hsurj b (lt_of_lt_of_le hbK hK)
      exact ⟨i, Finset.mem_filter.mpr ⟨Finset.mem_range.mpr hiL, by omega⟩, hib⟩
  simpa using hcard

/-! Facts about len_keep. -/

lemma len_keep_cast_eq_floor {L : ℕ} {r : ℚ} (hr0 : 0 ≤ r) (hr1 : r ≤ 1) :
    (len_keep L r : ℤ) = ⌊(L : ℚ) * (1 - r)⌋ := by
  have h0 : (0 : ℚ) ≤ (L : ℚ) * (1 - r) :=
    mul_nonneg (Nat.cast_nonneg L) (by linarith)
  unfold len_keep pyInt
  rw [if_pos h0, Int.toNat_of_nonneg (Int.floor_nonneg.mpr h0)]

lemma len_keep_le {L : ℕ} {r : ℚ} (hr0 : 0 ≤ r) : len_keep L r ≤ L := by
  unfold len_keep pyInt
  split_ifs with h
  · have hle : (L : ℚ) * (1 - r) ≤ (L : ℚ) :=
      mul_le_of_le_one_right (Nat.cast_nonneg L) (by linarith)
    have hfl : ⌊(L : ℚ) * (1 - r)⌋ ≤ (L : ℤ) := by
      have := Int.floor_le_floor hle
      rwa [Int.floor_natCast] at this
    omega
  · have hce : ⌈(L : ℚ) * (1 - r)⌉ ≤ (0 : ℤ) :=
      Int.ceil_le.mpr (by push_cast; linarith [not_le.mp h])
    omega

/-- C6: for every sample of every random_masking call, ids_shuffle and
ids_restore are mutually inverse permutations of the token range: composing
them in either order is the identity on indices below L. -/
theorem random_masking_ids_inverse (L : ℕ) (noise : T2) (n q : ℕ) (hq : q < L) :
    ids_shuffle L noise n (ids_restore L noise n q) = q ∧
    ids_restore L noise n (ids_shuffle L noise n q) = q := by
  have hres : ids_restore L noise n =
      argsortFn L (fun j => ((ids_shuffle L noise n j : ℕ) : ℚ)) := rfl
  have hmem : ∀ a, a < L → ids_shuffle L noise n a < L := fun a ha => argsortFn_lt ha
  have hinj : ∀ a, a < L → ∀ b, b < L →
      ids_shuffle L noise n a = ids_shuffle L noise n b → a = b :=
    fun a ha b hb hab => argsortFn_injOn ha hb hab
  have hsurj : ∀ mm, mm < L → ∃ a, a < L ∧ ids_shuffle L noise n a = mm :=
    fun mm hm => argsortFn_surjOn hm
  have hrank : ∀ i, i < L →
      rankOf L (fun j => ((ids_shuffle L noise n j : ℕ) : ℚ)) i = ids_shuffle L noise n i :=
    fun i hi => rankOf_natCast_eq (ids_shuffle L noise n) hmem hinj hsurj hi
  constructor
  · have h1 := argsortFn_spec (v := fun j => ((ids_shuffle L noise n j : ℕ) : ℚ)) hq
    rw [hres]
    exact (hrank _ h1.1).symm.trans h1.2
  · rw [hres, ← hrank q hq]
    exact argsortFn_rankOf hq

/-- Witness for C6 at a concrete call: L = 3, noise row (2, 0, 1). -/
theorem random_masking_ids_inverse_witness :
    ids_shuffle 3 (fun _ j => ((2 - j : ℤ) : ℚ)) 0
        (ids_restore 3 (fun _ j => ((2 - j : ℤ) : ℚ)) 0 1) = 1 ∧
    ids_restore 3 (fun _ j => ((2 - j : ℤ) : ℚ)) 0
        (ids_shuffle 3 (fun _ j => ((2 - j : ℤ) : ℚ)) 0 1) = 1 :=
  random_masking_ids_inverse 3 (fun _ j => ((2 - j : ℤ) : ℚ)) 0 1 (by decide)

/-- C7: for a mask ratio r in [0, 1), random_masking keeps exactly
int(L * (1 - r)) = floor(L * (1 - r)) tokens, and for every sample the
restored binary mask has exactly that many zero (kept) entries and
L - floor(L * (1 - r)) one (removed) entries. -/
theorem random_masking_counts (L : ℕ) (r : ℚ) (noise : T2)
    (hr0 : 0 ≤ r) (hr1 : r < 1) :
    (len_keep L r : ℤ) = ⌊(L : ℚ) * (1 - r)⌋ ∧
    ∀ n,
      ((Finset.range L).filter
          (fun j => mask_from L (len_keep L r) noise n j = 0)).card = len_keep L r ∧
      ((Finset.range L).filter
          (fun j => mask_from L (len_keep L r) noise n j = 1)).card = L - len_keep L r := by
  refine ⟨len_keep_cast_eq_floor hr0 (le_of_lt hr1), fun n => ?_⟩
  have hres : ids_restore L noise n =
      argsortFn L (fun j => ((ids_shuffle L noise n j : ℕ) : ℚ)) := rfl
  have hmem : ∀ a, a < L → ids_restore L noise n a < L := by
    intro a ha; rw [hres]; exact argsortFn_lt ha
  have hinj : ∀ a, a < L → ∀ b, b < L →
      ids_restore L noise n a = ids_restore L noise n b → a = b := by
    intro a ha b hb hab; rw [hres] at hab; exact argsortFn_injOn ha hb hab
  have hsurj : ∀ mm, mm < L → ∃ a, a < L ∧ ids_restore L noise n a = mm := by
    intro mm hm; rw [hres]; exact argsortFn_surjOn hm
  have hzero :
      ((Finset.range L).filter (fun j => mask_from L (len_keep L r) noise n j = 0)) =
        ((Finset.range L).filter (fun j => ids_restore L noise n j < len_keep L r)) := by
    apply Finset.filter_congr
    intro j _
    unfold mask_from
    split_ifs with hcond
    · simp [hcond]
    · simp [hcond]
  have hone :
      ((Finset.range L).filter (fun j => mask_from L (len_keep L r) noise n j = 1)) =
        ((Finset.range L).filter (fun j => ¬ ids_restore L noise n j < len_keep L r)) := by
    apply Finset.filter_congr
    intro j _
    unfold mask_from
    split_ifs with hcond
    · simp [hcond]
    · simp [hcond]
  have hc0 :
      ((Finset.range L).filter (fun j => ids_restore L noise n j < len_keep L r)).card
        = len_keep L r :=
    card_filter_lt_of_bij L (len_keep L r) (ids_restore L noise n) hmem hinj hsurj
      (len_keep_le hr0)
  have hsplit :=
    Finset.filter_card_add_filter_neg_card_eq_card
      (s := Finset.range L) (p := fun j => ids_restore L noise n j < len_keep L r)
  rw [Finset.card_range] at hsplit
  constructor
  · rw [hzero]; exact hc0
  · rw [hone]
    omega

/-- Witness for C7: L = 4, r = 1/2, so len_keep = 2; the counts are checked
at a concrete noise tensor by instantiating the theorem. -/
theorem random_masking_counts_witness :
    ((len_keep 4 (1/2) : ℤ) = ⌊(4 : ℚ) * (1 - 1/2)⌋ ∧
      ((Finset.range 4).filter
          (fun j => mask_from 4 (len_keep 4 (1/2)) (fun _ j => ((j : ℤ) : ℚ)) 0 j = 0)).card
        = len_keep 4 (1/2) ∧
      ((Finset.range 4).filter
          (fun j => mask_from 4 (len_keep 4 (1/2)) (fun _ j => ((j : ℤ) : ℚ)) 0 j = 1)).card
        = 4 - len_keep 4 (1/2)) := by
  have h := random_masking_counts 4 (1/2) (fun _ j => ((j : ℤ) : ℚ))
    (by norm_num) (by norm_num)
  exact ⟨h.1, (h.2 0).1, (h.2 0).2⟩

/-- C8: gathering the masked relative-position bias with ids_keep equal to
the identity range yields, for every sample and head, exactly the full bias
matrix, with exact equality. -/
theorem masked_rel_bias_identity (rpb : RelativePositionBias) (L : ℕ)
    (idk : ℕ → ℕ → ℕ) (hid : ∀ b i, i < L → idk b i = i) :
    ∀ b hd i j, i < L → j < L →
      get_masked_rel_bias rpb idk b hd i j = rpb.fwd hd i j := by
  intro b hd i j hi hj
  simp [get_masked_rel_bias, gatherRows, gatherCols, hid b i hi, hid b j hj]

/-- Witness for C8 on a concrete 2 x 2 window (L = 4) with the identity
ids_keep. -/
theorem masked_rel_bias_identity_witness :
    get_masked_rel_bias ⟨2, 2, fun rr hh => (rr : ℚ) + hh⟩ (fun _ i => i) 0 1 2 3 =
      RelativePositionBias.fwd ⟨2, 2, fun rr hh => (rr : ℚ) + hh⟩ 1 2 3 :=
  masked_rel_bias_identity ⟨2, 2, fun rr hh => (rr : ℚ) + hh⟩ 4 (fun _ i => i)
    (fun _ _ _ => rfl) 0 1 2 3 (by decide) (by decide)

/-- C10: every entry of the fixed relative_position_index lies in
[0, (2h-1)(2w-1) - 1], so the gather of RelativePositionBias.forward never
reads the last 3 rows of the (2h-1)(2w-1)+3-row table. -/
theorem relPosIndex_in_range (h w i j : ℕ) (hh : 1 ≤ h) (hw : 1 ≤ w)
    (hi : i < h * w) (hj : j < h * w) :
    0 ≤ relPosIndex h w i j ∧
    (relPosIndex h w i j).toNat < num_relative_distance h w - 3 := by
  have hiw : i / w < h := (Nat.div_lt_iff_lt_mul (by omega)).mpr hi
  have hjw : j / w < h := (Nat.div_lt_iff_lt_mul (by omega)).mpr hj
  have him : i % w < w := Nat.mod_lt _ (by omega)
  have hjm : j % w < w := Nat.mod_lt _ (by omega)
  have key : ∀ ri rj si sj : ℕ, ri < h → rj < h → si < w → sj < w →
      0 ≤ ((ri:ℤ) - (rj:ℤ) + (h:ℤ) - 1) * (2 * (w:ℤ) - 1) +
            ((si:ℤ) - (sj:ℤ) + (w:ℤ) - 1) ∧
      ((ri:ℤ) - (rj:ℤ) + (h:ℤ) - 1) * (2 * (w:ℤ) - 1) +
            ((si:ℤ) - (sj:ℤ) + (w:ℤ) - 1) <
        (2 * (h:ℤ) - 1) * (2 * (w:ℤ) - 1) := by
    intro ri rj si sj hr1 hr2 hs1 hs2
    constructor
    · have e1 : (0:ℤ) ≤ (ri:ℤ) - (rj:ℤ) + (h:ℤ) - 1 := by omega
      have e2 : (0:ℤ) ≤ (si:ℤ) - (sj:ℤ) + (w:ℤ) - 1 := by omega
      have e3 : (0:ℤ) ≤ 2 * (w:ℤ) - 1 := by omega
      exact add_nonneg (mul_nonneg e1 e3) e2
    · have ea : (ri:ℤ) - (rj:ℤ) + (h:ℤ) - 1 ≤ 2 * (h:ℤ) - 2 := by omega
      have eb : (si:ℤ) - (sj:ℤ) + (w:ℤ) - 1 ≤ 2 * (w:ℤ) - 2 := by omega
      have eW : (0:ℤ) ≤ 2 * (w:ℤ) - 1 := by omega
      have hmul := mul_le_mul_of_nonneg_right ea eW
      nlinarith [hmul, eb]
  have hidx : relPosIndex h w i j =
      (((i / w : ℕ) : ℤ) - ((j / w : ℕ) : ℤ) + (h:ℤ) - 1) * (2 * (w:ℤ) - 1) +
        (((i % w : ℕ) : ℤ) - ((j % w : ℕ) : ℤ) + (w:ℤ) - 1) := rfl
  obtain ⟨h0, hlt⟩ := key (i / w) (j / w) (i % w) (j % w) hiw hjw him hjm
  rw [← hidx] at h0 hlt
  have hM : ((num_relative_distance h w - 3 : ℕ) : ℤ) =
      (2 * (h:ℤ) - 1) * (2 * (w:ℤ) - 1) := by
    unfold num_relative_distance
    have hcancel : (2*h-1) * (2*w-1) + 3 - 3 = (2*h-1) * (2*w-1) := by omega
    rw [hcancel, Nat.cast_mul, Nat.cast_sub (by omega : 1 ≤ 2*h),
      Nat.cast_sub (by omega : 1 ≤ 2*w)]
    push_cast
    ring
  exact ⟨h0, by omega⟩

/-- Witness for C10: a 3 x 3 window at the extreme pair (i, j) = (8, 0). -/
theorem relPosIndex_in_range_witness :
    0 ≤ relPosIndex 3 3 8 0 ∧
    (relPosIndex 3 3 8 0).toNat < num_relative_distance 3 3 - 3 :=
  relPosIndex_in_range 3 3 8 0 (by decide) (by decide) (by decide) (by decide)

/-- A concrete primitives record used by the concrete instantiations: every
transcendental is a cheap total function (the claims settled on concrete
models do not depend on their values). -/
def P0 : Prims :=
  { exp := fun _ => 1
    log := fun _ => 1
    cos := fun _ => 1
    sin := fun _ => 0
    silu := fun q => q
    gelu := fun q => q
    sqrt := fun _ => 1
    pi := 3
    fpow := fun _ _ => 1 }

/-- An all-zero random-draw bundle for concrete constructions. -/
def R0 : InitRandom :=
  { convW := fun _ _ _ _ => 0
    tFc1W := fun _ _ => 0
    tFc2W := fun _ _ => 0
    yTable := fun _ _ => 0
    qkvW := fun _ _ _ => 0
    projW := fun _ _ _ => 0
    fc1W := fun _ _ _ => 0
    fc2W := fun _ _ _ => 0
    rpbTable := fun _ _ _ => 0
    sQkvW := fun _ _ => 0
    sProjW := fun _ _ => 0
    sFc1W := fun _ _ => 0
    sFc2W := fun _ _ => 0
    sRpbTable := fun _ _ => 0
    maskTok := fun _ => 0 }

/-- C9 counterexample: with dropout_prob = 0 but force_drop_ids supplied and
equal to 1, LabelEmbedder.forward does replace label 0 by the null-class
index num_classes = 2 (which, with dropout 0, is even outside the
num_classes-row table). -/
theorem label_embedder_force_drop_counterexample :
    LabelEmbedder.effective_labels ⟨2, 0, fun r _ => (r : ℚ)⟩ (fun _ => 0) false
        (fun _ => 0) (some (fun _ => 1)) 0 = 2 ∧ (0 : ℕ) ≠ 2 := by
  constructor
  · rfl
  · decide

/-- C9 amended: with dropout_prob = 0 and no force_drop_ids,
LabelEmbedder.forward never substitutes the null class, for every training
flag and label tensor; when force_drop_ids is supplied, positions where it
equals 1 are replaced by num_classes regardless of dropout_prob. -/
theorem label_embedder_no_dropout_no_force (le : LabelEmbedder) (labels : ℕ → ℕ)
    (train : Bool) (rand : ℕ → ℚ) (hp : le.dropout_prob = 0) :
    ∀ n, le.effective_labels labels train rand none n = labels n := by
  intro n
  simp [LabelEmbedder.effective_labels, hp]

/-- Witness for the amended C9 on a concrete embedder in training mode. -/
theorem label_embedder_no_dropout_no_force_witness :
    LabelEmbedder.effective_labels ⟨2, 0, fun r _ => (r : ℚ)⟩ (fun _ => 1) true
        (fun _ => 0) none 0 = 1 :=
  label_embedder_no_dropout_no_force ⟨2, 0, fun r _ => (r : ℚ)⟩ (fun _ => 1) true
    (fun _ => 0) rfl 0

/-- C3 counterexample: a configuration violating all three conditions of the
claim at once (mask_ratio = 3/2 which is at least 1, decode_layer = -5 which
is negative and also not below depth, hidden_size = 20 not divisible by
num_heads = 3) is accepted by construction: MDT_init returns a model. -/
theorem invalid_config_constructs :
    (MDT_init ⟨32, 2, 4, 20, 12, 3, 4, 1/10, 1000, true, some (3/2), some (-5)⟩
        R0 P0).isSome = true := by
  unfold MDT_init
  norm_num [pyInt]

/-- C3 amended: construction validates none of mask_ratio, decode_layer range
or divisibility of hidden_size by num_heads.  Whenever decode_layer is
non-null, patch_size and num_heads are nonzero, num_heads does not exceed
hidden_size, int(hidden_size * mlp_ratio) is non-negative (the block Mlp's
linear width), and hidden_size is divisible by 4 (the sin-cos assertion),
construction succeeds for every mask_ratio and every decode_layer value;
the listed invalid configurations surface only at later calls. -/
theorem construction_no_validation (cfg : MDTConfig) (R : InitRandom) (P : Prims)
    (dl : ℤ) (hdl : cfg.decode_layer = some dl)
    (hps : cfg.patch_size ≠ 0) (hnh : cfg.num_heads ≠ 0)
    (hdim : cfg.hidden_size / cfg.num_heads ≠ 0)
    (hmlp : 0 ≤ pyInt ((cfg.hidden_size : ℚ) * cfg.mlp_ratio))
    (h2 : cfg.hidden_size % 2 = 0) (h4 : (cfg.hidden_size / 2) % 2 = 0) :
    (MDT_init cfg R P).isSome = true := by
  unfold MDT_init
  rw [if_neg hps, if_neg (by simp [hnh, hdim]), if_neg (not_lt.mpr hmlp),
    if_neg (by simp [h2, h4]), hdl]
  rfl

/-- Witness for the amended C3 at a concrete valid-shape configuration. -/
theorem construction_no_validation_witness :
    (MDT_init ⟨32, 2, 4, 16, 12, 5, 4, 1/10, 1000, true, none, some 3⟩
        R0 P0).isSome = true :=
  construction_no_validation ⟨32, 2, 4, 16, 12, 5, 4, 1/10, 1000, true, none, some 3⟩
    R0 P0 3 rfl (by decide) (by decide) (by decide) (by norm_num [pyInt])
    (by decide) (by decide)

/-- A linear layer whose weight and bias are zero sends everything to 0. -/
lemma linear_app_zero {l : Linear} (hw : l.w = fun _ _ => 0) (hb : l.b = fun _ => 0)
    (inD : ℕ) (x : ℕ → ℚ) (o : ℕ) : l.app inD x o = 0 := by
  simp [Linear.app, hw, hb]

/-- The final layer with zeroed projection returns 0 everywhere. -/
lemma finalLayer_fwd_zero {fl : FinalLayer} (P : Prims) (D : ℕ) (x : T3) (c : T2)
    (hw : fl.linear.w = fun _ _ => 0) (hb : fl.linear.b = fun _ => 0) (b l o : ℕ) :
    fl.fwd P D x c b l o = 0 := by
  simp only [FinalLayer.fwd]
  exact linear_app_zero hw hb _ _ _

/-- C4: a freshly constructed (untrained) model returns an all-zero output
tensor of image shape from forward, for every valid input and with
enable_mask both false and true, as a consequence of the zero-initialised
final projection; in particular masking does not change the external output
values or extent. -/
theorem fresh_model_forward_zero (m : MDTModel) (P : Prims) (img : T4) (t : ℕ → ℚ)
    (y : ℕ → ℕ) (em : Bool) (noise : T2) (lrand : ℕ → ℚ)
    (hz : ZeroInitialized m) :
    ∀ b ch i j, m.fwd P img t y em noise lrand b ch i j = 0 := by
  obtain ⟨-, -, -, -, hw, hb⟩ := hz
  intro b ch i j
  exact finalLayer_fwd_zero P m.hidden_size
    (m.backbone P (m.x0 img) (m.cond P t y lrand) em noise)
    (m.cond P t y lrand) hw hb b _ _

/-- A concrete all-zero model used to instantiate the C4 theorem. -/
def zeroLinear : Linear := ⟨fun _ _ => 0, fun _ => 0⟩

/-- A concrete all-zero block. -/
def zeroBlock : MDTBlock :=
  ⟨⟨1, 1, zeroLinear, zeroLinear, ⟨2, 2, fun _ _ => 0⟩⟩, ⟨zeroLinear, zeroLinear⟩, zeroLinear⟩

/-- A concrete freshly-initialised model (all deterministic zero inits hold;
the remaining weights happen to be zero as well). -/
def mzModel : MDTModel :=
  { input_size := 2
    patch_size := 1
    in_channels := 1
    out_channels := 1
    hidden_size := 1
    num_heads := 1
    mlp_ratio := 4
    learn_sigma := false
    x_embedder := ⟨fun _ _ _ _ => 0, fun _ => 0⟩
    t_embedder := ⟨256, zeroLinear, zeroLinear⟩
    y_embedder := ⟨2, 0, fun _ _ => 0⟩
    pos_embed := fun _ _ => 0
    decoder_pos_embed := fun _ _ => 0
    blocks := [zeroBlock]
    sideblocks := [zeroBlock]
    final_layer := ⟨zeroLinear, zeroLinear⟩
    mask_token := fun _ => 0
    mask_ratio := some (3/10)
    decode_layer := 1
    training := true }

/-- Witness for C4: the concrete fresh model satisfies the zero-init
predicate and its forward output vanishes at a sample index, with masking
enabled. -/
theorem fresh_model_forward_zero_witness :
    ZeroInitialized mzModel ∧
      mzModel.fwd P0 (fun _ _ _ _ => 1) (fun _ => 5) (fun _ => 5) true
        (fun _ _ => 1) (fun _ => 0) 0 0 0 0 = 0 := by
  have hb : mzModel.blocks = [zeroBlock] := rfl
  have hs : mzModel.sideblocks = [zeroBlock] := rfl
  have hz : ZeroInitialized mzModel := by
    refine ⟨?_, ?_, rfl, rfl, rfl, rfl⟩
    · intro blk hblk
      rw [hb, List.mem_singleton] at hblk
      subst hblk
      exact ⟨rfl, rfl⟩
    · intro blk hblk
      rw [hs, List.mem_singleton] at hblk
      subst hblk
      exact ⟨rfl, rfl⟩
  exact ⟨hz, fresh_model_forward_zero mzModel P0 (fun _ _ _ _ => 1) (fun _ => 5)
    (fun _ => 5) true (fun _ _ => 1) (fun _ => 0) hz 0 0 0 0⟩

/-- C1 amended: the masked-shortcut blend of forward_side_interpolater keeps
the side-block output at removed (mask = 1) positions and the pre-side-block
value at kept (mask = 0) positions — the polarity opposite to the claim
(matching the inversion note of the design). -/
theorem side_interpolater_blend (m : MDTModel) (P : Prims) (L lk D mlpHid : ℕ)
    (x : T3) (c : T2) (mask : T2) (idr : ℕ → ℕ → ℕ) (b j d : ℕ) :
    (mask b j = 0 →
      m.forward_side_interpolater P L lk D mlpHid x c mask idr b j d =
        m.sideBefore lk x idr b j d) ∧
    (mask b j = 1 →
      m.forward_side_interpolater P L lk D mlpHid x c mask idr b j d =
        m.sideAfter P L D mlpHid (m.sideBefore lk x idr) c b j d) := by
  constructor <;> intro h <;> simp [MDTModel.forward_side_interpolater, h]

/-- A tiny concrete block (hidden size 1, one head): the adaLN weight routes
the conditioning value to gate_msa only, and the attention head outputs the
constant 1 (its value path reads only the qkv bias). -/
def tinyBlock : MDTBlock :=
  { attn :=
      { num_heads := 1
        scale := 1
        qkv := { w := fun _ _ => 0, b := fun o => if o = 2 then 1 else 0 }
        proj := { w := fun _ _ => 1, b := fun _ => 0 }
        rel_pos_bias := { h := 1, w := 1, table := fun _ _ => 0 } }
    mlp := { fc1 := zeroLinear, fc2 := zeroLinear }
    adaLN := { w := fun o _ => if o = 2 then 1 else 0, b := fun _ => 0 } }

/-- A tiny concrete trained model with n input and output channels: one 1 x 1
patch token, hidden size 1, one block, and a final layer whose shift routes
the conditioning value straight to every output channel, so the output of
forward is the label embedding value (0 for label 0, 1 for label 1). -/
def tinyModel (n : ℕ) : MDTModel :=
  { input_size := 1
    patch_size := 1
    in_channels := n
    out_channels := n
    hidden_size := 1
    num_heads := 1
    mlp_ratio := 4
    learn_sigma := false
    x_embedder := ⟨fun _ _ _ _ => 0, fun _ => 0⟩
    t_embedder := ⟨256, zeroLinear, zeroLinear⟩
    y_embedder := ⟨2, 0, fun r _ => if r = 1 then 1 else 0⟩
    pos_embed := fun _ _ => 0
    decoder_pos_embed := fun _ _ => 0
    blocks := [tinyBlock]
    sideblocks := [tinyBlock]
    final_layer :=
      { linear := { w := fun _ _ => 1, b := fun _ => 0 }
        adaLN := { w := fun o _ => if o = 0 then 1 else 0, b := fun _ => 0 } }
    mask_token := fun _ => 0
    mask_ratio := none
    decode_layer := 1
    training := false }

/-- Evaluation of the tiny block at feature 0: it adds the conditioning
value (gate_msa = c, attention output 1, mlp gate 0). -/
lemma tinyBlock_eval (mlpHid : ℕ) (x : T3) (c : T2) (b l : ℕ) :
    tinyBlock.fwd P0 1 1 mlpHid x c none b l 0 = x b l 0 + c b 0 := by
  simp [MDTBlock.fwd, tinyBlock, Attention.fwd, Linear.app, softmax, layerNorm,
    modulate, Mlp.fwd, P0, zeroLinear, Finset.sum_range_one]
  norm_num [Finset.filter_singleton]

/-- The tiny final layer sends every token and output coordinate to the
conditioning value c b 0, independently of the backbone output. -/
lemma tiny_final (n : ℕ) (x : T3) (c : T2) (b l o : ℕ) :
    FinalLayer.fwd (tinyModel n).final_layer P0 (tinyModel n).hidden_size x c b l o
      = c b 0 := by
  simp [FinalLayer.fwd, tinyModel, Linear.app, layerNorm, P0, Finset.sum_range_one]

/-- The tiny conditioning vector equals the label embedding: 1 for label 1,
0 otherwise (the timestep branch is zero). -/
lemma tiny_cond (n : ℕ) (t : ℕ → ℚ) (y : ℕ → ℕ) (lrand : ℕ → ℚ) (b d : ℕ) :
    (tinyModel n).cond P0 t y lrand b d = if y b = 1 then 1 else 0 := by
  simp [MDTModel.cond, tinyModel, TimestepEmbedder.fwd, Linear.app, zeroLinear,
    LabelEmbedder.fwd, LabelEmbedder.effective_labels, P0, Finset.sum_range_one]

/-- Forward of the tiny model: the output at every index is the label
embedding value of the sample. -/
lemma tiny_forward (n : ℕ) (img : T4) (t : ℕ → ℚ) (y : ℕ → ℕ) (noise : T2)
    (lrand : ℕ → ℚ) (b ch i j : ℕ) :
    (tinyModel n).fwd P0 img t y false noise lrand b ch i j =
      if y b = 1 then 1 else 0 := by
  simp only [MDTModel.fwd, unpatchifyF]
  rw [tiny_final, tiny_cond]

/-- C1 counterexample: on a concrete masked call (L = 1, mask_ratio 0, so the
single position is kept: mask = 0 there), the blend output equals the
pre-side-block value (5) and differs from the just-processed side-block
output (6) — refuting the claim that kept positions retain the side-block
output. -/
theorem side_blend_polarity_counterexample :
    mask_from 1 1 (fun _ _ => 0) 0 0 = 0 ∧
    (tinyModel 1).forward_side_interpolater P0 1 1 1 4 (fun _ _ _ => 5)
        (fun _ _ => 1) (mask_from 1 1 (fun _ _ => 0))
        (ids_restore 1 (fun _ _ => 0)) 0 0 0 ≠
      (tinyModel 1).sideAfter P0 1 1 4
        ((tinyModel 1).sideBefore 1 (fun _ _ _ => 5) (ids_restore 1 (fun _ _ => 0)))
        (fun _ _ => 1) 0 0 0 := by
  have hlt : ids_restore 1 (fun _ _ => 0) 0 0 < 1 := argsortFn_lt (by decide)
  have hmask : mask_from 1 1 (fun _ _ => 0) 0 0 = 0 := by
    simp [mask_from, hlt]
  have hbefore :
      (tinyModel 1).sideBefore 1 (fun _ _ _ => 5) (ids_restore 1 (fun _ _ => 0)) 0 0 0
        = 5 := by
    simp [MDTModel.sideBefore, tinyModel, hlt]
  have hsb : (tinyModel 1).sideblocks = [tinyBlock] := rfl
  have hafter :
      (tinyModel 1).sideAfter P0 1 1 4
          ((tinyModel 1).sideBefore 1 (fun _ _ _ => 5) (ids_restore 1 (fun _ _ => 0)))
          (fun _ _ => 1) 0 0 0 = 6 := by
    rw [MDTModel.sideAfter, hsb]
    simp [tinyBlock_eval, hbefore]
    norm_num
  have hfsi :
      (tinyModel 1).forward_side_interpolater P0 1 1 1 4 (fun _ _ _ => 5)
          (fun _ _ => 1) (mask_from 1 1 (fun _ _ => 0))
          (ids_restore 1 (fun _ _ => 0)) 0 0 0 = 5 := by
    simp [MDTModel.forward_side_interpolater, hmask]
    exact hbefore
  refine ⟨hmask, ?_⟩
  rw [hfsi, hafter]
  norm_num

/-- Witness for the amended C1 at the same concrete masked call: the kept
(mask = 0) position retains the pre-side-block value. -/
theorem side_interpolater_blend_witness :
    (tinyModel 1).forward_side_interpolater P0 1 1 1 4 (fun _ _ _ => 5)
        (fun _ _ => 1) (mask_from 1 1 (fun _ _ => 0))
        (ids_restore 1 (fun _ _ => 0)) 0 0 0 =
      (tinyModel 1).sideBefore 1 (fun _ _ _ => 5) (ids_restore 1 (fun _ _ => 0))
        0 0 0 := by
  have hlt : ids_restore 1 (fun _ _ => 0) 0 0 < 1 := argsortFn_lt (by decide)
  exact (side_interpolater_blend (tinyModel 1) P0 1 1 1 4 (fun _ _ _ => 5)
    (fun _ _ => 1) (mask_from 1 1 (fun _ _ => 0)) (ids_restore 1 (fun _ _ => 0))
    0 0 0).1 (by simp [mask_from, hlt])

/-- C5 amended: with cfg_scale = 1 the computed guidance strength
real_cfg_scale equals 1 at every timestep, so the recombination performs no
extrapolation: half_eps collapses exactly to the conditional eps (the
conditional pass-through, not the unconditional one). -/
theorem cfg_scale_one_no_extrapolation (P : Prims) (t T pw u c : ℚ) :
    realCfgScale P 1 t T pw = 1 ∧ half_eps u c (realCfgScale P 1 t T pw) = c := by
  constructor
  · unfold realCfgScale; ring
  · unfold half_eps realCfgScale; ring

/-- C5 counterexample: on a concrete model whose conditional and
unconditional outputs differ, forward_with_cfg at cfg_scale = 1 does not
reduce to the unconditional pass-through branch (cfg_scale = None): the
second (unconditional) half carries the conditional eps instead. -/
theorem cfg_scale_one_counterexample :
    (tinyModel 3).forward_with_cfg P0 2 (fun _ _ _ _ => 0) (fun _ => 0)
        (fun b => b) (some 1) 1000 4 (fun _ _ => 0) (fun _ => 0) 1 0 0 0 ≠
      (tinyModel 3).forward_with_cfg P0 2 (fun _ _ _ _ => 0) (fun _ => 0)
        (fun b => b) none 1000 4 (fun _ _ => 0) (fun _ => 0) 1 0 0 0 := by
  have hfw : ∀ (img : T4) (b ch i j : ℕ),
      (tinyModel 3).fwd P0 img (fun _ => 0) (fun b => b) false (fun _ _ => 0)
        (fun _ => 0) b ch i j = if b = 1 then 1 else 0 := by
    intro img b ch i j
    rw [tiny_forward]
  simp only [MDTModel.forward_with_cfg, hfw]
  norm_num [half_eps, realCfgScale, tinyModel]

/-- C2 amended: forward_with_cfg splits the channels at the hardcoded index
3, not at in_channels: whenever out_channels ≥ 3, every output channel with
index at least 3 is passed through unchanged from the underlying forward
output, for every configured in_channels (so the claim's split at
in_channels holds only when in_channels = 3). -/
theorem cfg_split_at_three (m : MDTModel) (P : Prims) (B : ℕ) (x : T4)
    (t : ℕ → ℚ) (y : ℕ → ℕ) (s T pw : ℚ) (noise : T2) (lrand : ℕ → ℚ)
    (b ch i j : ℕ) (hch : 3 ≤ ch) (hout : 3 ≤ m.out_channels) :
    m.forward_with_cfg P B x t y (some s) T pw noise lrand b ch i j =
      m.fwd P (cfgCombine B x) t y false noise lrand b ch i j := by
  have he3 : min 3 m.out_channels = 3 := min_eq_left hout
  simp only [MDTModel.forward_with_cfg, he3]
  rw [if_neg (by omega)]
  congr 1
  omega

/-- Witness for the amended C2 at a concrete model with in_channels =
out_channels = 4, channel 3. -/
theorem cfg_split_at_three_witness :
    (tinyModel 4).forward_with_cfg P0 2 (fun _ _ _ _ => 0) (fun _ => 0)
        (fun b => b) (some 2) 1000 4 (fun _ _ => 0) (fun _ => 0) 1 3 0 0 =
      (tinyModel 4).fwd P0 (cfgCombine 2 (fun _ _ _ _ => 0)) (fun _ => 0)
        (fun b => b) false (fun _ _ => 0) (fun _ => 0) 1 3 0 0 :=
  cfg_split_at_three (tinyModel 4) P0 2 (fun _ _ _ _ => 0) (fun _ => 0)
    (fun b => b) 2 1000 4 (fun _ _ => 0) (fun _ => 0) 1 3 0 0 (by decide) (by decide)

/-- C2 counterexample: with in_channels = out_channels = 4 the claim makes
all four channels part of the guided quantity, whose two batch halves are
forced identical; but the code splits at channel 3, which passes through,
and the two halves differ there on a concrete model. -/
theorem cfg_split_at_three_counterexample :
    (tinyModel 4).forward_with_cfg P0 2 (fun _ _ _ _ => 0) (fun _ => 0)
        (fun b => b) (some 2) 1000 4 (fun _ _ => 0) (fun _ => 0) 0 3 0 0 ≠
      (tinyModel 4).forward_with_cfg P0 2 (fun _ _ _ _ => 0) (fun _ => 0)
        (fun b => b) (some 2) 1000 4 (fun _ _ => 0) (fun _ => 0) 1 3 0 0 := by
  have hfw : ∀ (img : T4) (b ch i j : ℕ),
      (tinyModel 4).fwd P0 img (fun _ => 0) (fun b => b) false (fun _ _ => 0)
        (fun _ => 0) b ch i j = if b = 1 then 1 else 0 := by
    intro img b ch i j
    rw [tiny_forward]
  simp only [MDTModel.forward_with_cfg, hfw]
  norm_num [tinyModel]
